import Mathlib

/-!
Verification of the indicator-acquisition and order-execution core of the
nof1.ai-alpha-arena trading bot, as a shallow embedding in Lean 4.

Source files embedded:
  * `src/backend/indicators/taapi_cache.py`  — `TAAPICache`
  * `src/backend/indicators/taapi_client.py` — `TAAPIClient` (retry layer,
    normalization, `fetch_asset_indicators`)
  * `src/backend/trading/okx_api.py`         — `OKXAPI` (symbol mapping,
    position mode, market / take-profit / stop-loss order placement)

Numeric values are embedded as exact rationals (`ℚ`); Python `int(x)`
truncation is `pytrunc`; wall-clock time is passed explicitly to each cache
operation; network responses and outcomes are explicit inputs.
-/

/-! ## Python value model

Python objects that flow through the indicator pipeline: `None`, booleans,
numbers (int/float as one numeric tower, embedded in `ℚ`), strings, lists
and dicts (association lists, keys unique as in a Python dict). -/

inductive PyVal where
  | none
  | bool (b : Bool)
  | num (q : ℚ)
  | str (s : String)
  | list (xs : List PyVal)
  | obj (fields : List (String × PyVal))
  deriving Repr, BEq

/-- Python truthiness (`if not data`): `None`, `False`, `0`, `""`, `[]`,
`{}` are falsy, everything else truthy. -/
def pyTruthy : PyVal → Bool
  | .none => false
  | .bool b => b
  | .num q => q != 0
  | .str s => s != ""
  | .list xs => !xs.isEmpty
  | .obj fields => !fields.isEmpty

/-- Python dict key lookup (`key in data` / `data[key]`). -/
def dictLookup (fields : List (String × PyVal)) (k : String) : Option PyVal :=
  match fields with
  | [] => Option.none
  | (k', v) :: rest => if k' = k then some v else dictLookup rest k

/-- Python `d.get(key)` — missing keys give `None`. -/
def dictGet (fields : List (String × PyVal)) (k : String) : PyVal :=
  (dictLookup fields k).getD .none

/-! ## `taapi_cache.py` — TAAPICache

The cache is a dict from `f"{asset}:{interval}"` to
`{'timestamp': ..., 'data': ...}`.  `time.time()` is passed explicitly as
`now`.  The stored data type is a parameter `α` (Python stores `Any`). -/

structure CacheEntry (α : Type) where
  timestamp : ℚ
  data : α
  deriving Repr, DecidableEq

structure TAAPICache (α : Type) where
  ttl : ℚ
  cache : List (String × CacheEntry α)
  deriving Repr, DecidableEq

/-- `f"{asset}:{interval}"` -/
def cacheKey (asset interval : String) : String := asset ++ ":" ++ interval

/-- Lookup in the underlying dict. -/
def entryLookup {α : Type} (l : List (String × CacheEntry α)) (k : String) :
    Option (CacheEntry α) :=
  match l with
  | [] => Option.none
  | (k', e) :: rest => if k' = k then some e else entryLookup rest k

/-- Python dict assignment `self._cache[key] = ...`: replace in place if the
key exists, else append. -/
def entryUpsert {α : Type} (k : String) (e : CacheEntry α) :
    List (String × CacheEntry α) → List (String × CacheEntry α)
  | [] => [(k, e)]
  | (k', e') :: rest =>
    if k' = k then (k, e) :: rest else (k', e') :: entryUpsert k e rest

/-- Python `del self._cache[key]`: remove the (unique) binding of `k`. -/
def entryErase {α : Type} (k : String) :
    List (String × CacheEntry α) → List (String × CacheEntry α)
  | [] => []
  | (k', e') :: rest =>
    if k' = k then rest else (k', e') :: entryErase k rest

namespace TAAPICache

/-- `TAAPICache.get`: hit iff the key is present and `now - timestamp ≤ ttl`;
an entry older than `ttl` is deleted on read (eviction-on-read).  Returns the
result together with the possibly-mutated cache. -/
def get {α : Type} (c : TAAPICache α) (now : ℚ) (asset interval : String) :
    Option α × TAAPICache α :=
  let key := cacheKey asset interval
  match entryLookup c.cache key with
  | Option.none => (Option.none, c)
  | some entry =>
    let age := now - entry.timestamp
    if age > c.ttl then
      (Option.none, { c with cache := entryErase key c.cache })
    else
      (some entry.data, c)

/-- `TAAPICache.set`: store `data` under `f"{asset}:{interval}"` with the
current timestamp. -/
def set {α : Type} (c : TAAPICache α) (now : ℚ) (asset interval : String)
    (data : α) : TAAPICache α :=
  { c with cache := entryUpsert (cacheKey asset interval) ⟨now, data⟩ c.cache }

/-- `TAAPICache.clear`. -/
def clear {α : Type} (c : TAAPICache α) : TAAPICache α :=
  { c with cache := [] }

structure Stats where
  total_entries : ℕ
  active_entries : ℕ
  expired_entries : ℕ
  ttl_seconds : ℚ
  deriving Repr, DecidableEq

/-- `TAAPICache.stats`: counts computed on demand; the cache itself is
returned unchanged (the Python method never mutates `_cache`). -/
def stats {α : Type} (c : TAAPICache α) (now : ℚ) :
    Stats × TAAPICache α :=
  ({ total_entries := c.cache.length
   , active_entries := c.cache.countP (fun e => decide (now - e.2.timestamp ≤ c.ttl))
   , expired_entries := c.cache.countP (fun e => decide (now - e.2.timestamp > c.ttl))
   , ttl_seconds := c.ttl }, c)

end TAAPICache

/-! ## `taapi_client.py` — normalization helpers

Python `round(x, 4)` rounds to 4 decimal places with ties to even.
`isinstance(v, (int, float))` is true for `bool` as well (`round(True, 4)`
is `1`), so `round4IfNum` also maps booleans to numbers. -/

/-- Round a rational to the nearest integer, ties to even. -/
def roundHalfEven (q : ℚ) : ℤ :=
  let f := ⌊q⌋
  let r := q - (f : ℚ)
  if r < 1/2 then f
  else if 1/2 < r then f + 1
  else if f % 2 = 0 then f else f + 1

/-- `round(q, 4)`. -/
def round4 (q : ℚ) : ℚ := (roundHalfEven (q * 10000) : ℚ) / 10000

/-- The list-comprehension body
`round(v, 4) if isinstance(v, (int, float)) else v`. -/
def round4IfNum : PyVal → PyVal
  | .num q => .num (round4 q)
  | .bool b => .num (if b then 1 else 0)
  | v => v

/-- `TAAPIClient._extract_series`: `[]` unless `data` is truthy, a dict, has
`value_key`, and that key holds a list; then each numeric element is rounded
to 4 decimals, order preserved. -/
def extract_series (data : PyVal) (value_key : String) : List PyVal :=
  if !pyTruthy data then []
  else
    match data with
    | .obj fields =>
      match dictLookup fields value_key with
      | some (.list values) => values.map round4IfNum
      | _ => []
    | _ => []

/-- `TAAPIClient._extract_value`: `None` unless `data` is truthy, a dict and
has `value_key`; a numeric value is rounded to 4 decimals, any other value is
returned as-is. -/
def extract_value (data : PyVal) (value_key : String) : PyVal :=
  if !pyTruthy data then .none
  else
    match data with
    | .obj fields =>
      match dictLookup fields value_key with
      | some v => round4IfNum v
      | Option.none => .none
    | _ => .none

/-! ## `taapi_client.py` — `fetch_asset_indicators`

The two bulk responses (already parsed into id → result dicts by
`fetch_bulk_indicators`, which returns `{}` on any exception) are explicit
inputs; the cache fast-path (both horizons cached → early return) and the
30 s inter-request sleep do not affect the emptiness/error logic modelled
here. -/

/-- The `result["5m"]` bundle built from the 5m bulk response. -/
def result_5m (bulk_5m : List (String × PyVal)) : List (String × PyVal) :=
  [("ema20", .list (extract_series (dictGet bulk_5m "ema20") "value")),
   ("macd",  .list (extract_series (dictGet bulk_5m "macd") "valueMACD")),
   ("rsi7",  .list (extract_series (dictGet bulk_5m "rsi7") "value")),
   ("rsi14", .list (extract_series (dictGet bulk_5m "rsi14") "value"))]

/-- The `result["4h"]` bundle built from the 4h bulk response. -/
def result_4h (bulk_4h : List (String × PyVal)) : List (String × PyVal) :=
  [("ema20", extract_value (dictGet bulk_4h "ema20") "value"),
   ("ema50", extract_value (dictGet bulk_4h "ema50") "value"),
   ("atr3",  extract_value (dictGet bulk_4h "atr3") "value"),
   ("atr14", extract_value (dictGet bulk_4h "atr14") "value"),
   ("macd",  .list (extract_series (dictGet bulk_4h "macd") "valueMACD")),
   ("rsi14", .list (extract_series (dictGet bulk_4h "rsi14") "value"))]

/-- `all_5m_empty = not any([ema20_5m, macd_5m, rsi7_5m, rsi14_5m])`
(Python truthiness). -/
def all_5m_empty (r5 : List (String × PyVal)) : Bool :=
  !(pyTruthy (dictGet r5 "ema20") || pyTruthy (dictGet r5 "macd")
    || pyTruthy (dictGet r5 "rsi7") || pyTruthy (dictGet r5 "rsi14"))

/-- `all_lt_empty = not any([ema20_lt, ema50_lt, atr3_lt, atr14_lt, macd_lt,
rsi14_lt])` (Python truthiness). -/
def all_lt_empty (r4 : List (String × PyVal)) : Bool :=
  !(pyTruthy (dictGet r4 "ema20") || pyTruthy (dictGet r4 "ema50")
    || pyTruthy (dictGet r4 "atr3") || pyTruthy (dictGet r4 "atr14")
    || pyTruthy (dictGet r4 "macd") || pyTruthy (dictGet r4 "rsi14"))

/-- The intended hard failure: `raise RuntimeError(...)` when both horizons
are entirely empty (`if all_5m_empty and all_lt_empty`). -/
def hardFailureCheck (r5 r4 : List (String × PyVal)) : Except String Unit :=
  if all_5m_empty r5 && all_lt_empty r4 then
    .error "TAAPI returned no usable indicators"
  else
    .ok ()

/-- `TAAPIClient.fetch_asset_indicators` (fetch path): builds both bundles
and returns them.  In the source the emptiness check and its
`raise RuntimeError` live inside a `try:` block whose handler is
`except Exception: pass`, so the raised error is swallowed and the function
returns normally regardless; the discarded `hardFailureCheck` models exactly
that. -/
def fetch_asset_indicators (bulk_5m bulk_4h : List (String × PyVal)) :
    Except String (List (String × PyVal) × List (String × PyVal)) :=
  let r5 := result_5m bulk_5m
  let r4 := result_4h bulk_4h
  let _ := hardFailureCheck r5 r4
  .ok (r5, r4)

/-! ## `taapi_client.py` — shared request/retry layer

`_get_with_retry` and `_post_with_retry` run the same loop
`for attempt in range(retries)` (they differ only in the underlying HTTP
verb and its timeout, neither of which enters the retry decision).  The
outcome of each attempt is an explicit input `outcomes : ℕ → ReqOutcome`.
The loop is embedded structurally on `fuel = retries - attempt`, so at the
top of an iteration `attempt < retries` ↔ the `fuel+1` pattern matches, and
the source's `attempt < retries - 1` ↔ `0 < fuel`.  `sleeps` records every
`time.sleep(backoff)` performed between attempts. -/

inductive ReqOutcome where
  | success (body : PyVal)
  | httpError (status : ℕ)
  | timeoutErr

inductive ReqError where
  | httpError (status : ℕ)
  | timeoutErr
  | maxRetriesExceeded
  deriving Repr, DecidableEq

/-- `e.response.status_code == 429 or e.response.status_code >= 500` -/
def retryableStatus (s : ℕ) : Bool := s == 429 || decide (500 ≤ s)

/-- An attempt outcome that the loop retries on: HTTP 429/5xx or timeout. -/
def retryableOutcome : ReqOutcome → Bool
  | .success _ => false
  | .httpError s => retryableStatus s
  | .timeoutErr => true

/-- The error surfaced if the loop gives up on this outcome. -/
def outcomeError : ReqOutcome → ReqError
  | .success _ => .maxRetriesExceeded
  | .httpError s => .httpError s
  | .timeoutErr => .timeoutErr

structure RetryResult where
  result : Except ReqError PyVal
  attempts : ℕ
  sleeps : List ℚ

/-- The retry loop shared by `_get_with_retry` / `_post_with_retry`. -/
def retryLoop (outcomes : ℕ → ReqOutcome) (backoff : ℚ) :
    (fuel : ℕ) → (attempt : ℕ) → RetryResult
  | 0, attempt => ⟨.error .maxRetriesExceeded, attempt, []⟩
  | fuel + 1, attempt =>
    match outcomes attempt with
    | .success v => ⟨.ok v, attempt + 1, []⟩
    | .httpError s =>
      if retryableStatus s && decide (0 < fuel) then
        let r := retryLoop outcomes backoff fuel (attempt + 1)
        ⟨r.result, r.attempts, backoff :: r.sleeps⟩
      else ⟨.error (.httpError s), attempt + 1, []⟩
    | .timeoutErr =>
      if 0 < fuel then
        let r := retryLoop outcomes backoff fuel (attempt + 1)
        ⟨r.result, r.attempts, backoff :: r.sleeps⟩
      else ⟨.error .timeoutErr, attempt + 1, []⟩

/-- `TAAPIClient._get_with_retry` (defaults `retries=10, backoff=5.0`). -/
def get_with_retry (outcomes : ℕ → ReqOutcome) (retries : ℕ := 10)
    (backoff : ℚ := 5) : RetryResult :=
  retryLoop outcomes backoff retries 0

/-- `TAAPIClient._post_with_retry` (defaults `retries=10, backoff=5.0`). -/
def post_with_retry (outcomes : ℕ → ReqOutcome) (retries : ℕ := 10)
    (backoff : ℚ := 5) : RetryResult :=
  retryLoop outcomes backoff retries 0

/-- Sample attempt-outcome trace: 429, timeout, 503, then a plain 404. -/
def sampleOutcomes : ℕ → ReqOutcome := fun i =>
  if i = 0 then .httpError 429
  else if i = 1 then .timeoutErr
  else if i = 2 then .httpError 503
  else if i = 3 then .httpError 404
  else .success .none

/-! ## `okx_api.py` — symbol mapping

Python strings are embedded as `List Char`; `hasSub` is the `in` substring
test, `splitFirst` is `s.split(sep)[0]`, and `replaceAll` is
`s.replace(pat, rep)` (left-to-right, non-overlapping; the source only
calls it with the non-empty pattern `"-USDT-SWAP"`). -/

/-- Python `pat in hay` (substring containment). -/
def hasSub : List Char → List Char → Bool
  | [], pat => pat.isEmpty
  | c :: t, pat => pat.isPrefixOf (c :: t) || hasSub t pat

/-- Python `s.split(sep)[0]`: the characters before the first `sep`. -/
def splitFirst (sep : Char) : List Char → List Char
  | [] => []
  | c :: t => if c = sep then [] else c :: splitFirst sep t

/-- Python `s.replace(pat, rep)` for non-empty `pat`. -/
def replaceAll (pat rep : List Char) : List Char → List Char
  | [] => []
  | c :: t =>
    if h : ¬pat.isEmpty ∧ pat.isPrefixOf (c :: t) then
      rep ++ replaceAll pat rep ((c :: t).drop pat.length)
    else
      c :: replaceAll pat rep t
termination_by l => l.length
decreasing_by
  · have hp : 0 < pat.length := by
      cases pat with
      | nil => simp [List.isEmpty] at h
      | cons p pt => simp
    simp only [List.length_drop, List.length_cons]
    omega
  · simp

namespace OKXAPI

/-- `OKXAPI._get_symbol`: `'BTC' -> 'BTC/USDT:USDT'`. -/
def _get_symbol (asset : List Char) : List Char :=
  if hasSub asset "/".data then asset else asset ++ "/USDT:USDT".data

/-- `OKXAPI._get_inst_id`: `'BTC' -> 'BTC-USDT-SWAP'`. -/
def _get_inst_id (asset : List Char) : List Char :=
  if hasSub asset "-SWAP".data then asset else asset ++ "-USDT-SWAP".data

/-- `OKXAPI._get_asset_from_symbol`: `'BTC/USDT:USDT' -> 'BTC'`,
`'BTC-USDT-SWAP' -> 'BTC'`. -/
def _get_asset_from_symbol (symbol : List Char) : List Char :=
  if hasSub symbol "/".data then splitFirst '/' symbol
  else if hasSub symbol "-USDT-SWAP".data then
    replaceAll "-USDT-SWAP".data [] symbol
  else symbol

end OKXAPI

/-! ## `okx_api.py` — position-mode state machine

`self._position_mode : Optional[str]` starts as `None`; the account-config
query's outcome (exception, or the extracted `posMode` field) is an explicit
input. -/

inductive PosMode where
  | net_mode
  | long_short_mode
  deriving Repr, DecidableEq

/-- Outcome of `private_get_account_config()` plus the `data[0]["posMode"]`
extraction: either the query raised, or it yielded a (possibly missing /
unrecognized) `posMode` field. -/
inductive ConfigQuery where
  | success (posModeField : Option String)
  | failure
  deriving Repr, DecidableEq

/-- The mode committed on a first (non-memoized) detection: a recognized
`posMode` is stored; an unrecognized field or a raised exception degrades to
`net_mode`. -/
def detectPosMode : ConfigQuery → PosMode
  | .failure => .net_mode
  | .success f =>
    if f = some "net_mode" then .net_mode
    else if f = some "long_short_mode" then .long_short_mode
    else .net_mode

namespace OKXAPI

/-- `OKXAPI._ensure_position_mode`: returns immediately when the mode is
already set, otherwise commits `detectPosMode` of this query's outcome. -/
def _ensure_position_mode (st : Option PosMode) (q : ConfigQuery) :
    Option PosMode :=
  match st with
  | some m => some m
  | Option.none => some (detectPosMode q)

/-- A session-long sequence of `_ensure_position_mode` calls, each with the
outcome the underlying query would have had at that moment. -/
def run_ensures (st : Option PosMode) (qs : List ConfigQuery) :
    Option PosMode :=
  qs.foldl _ensure_position_mode st

end OKXAPI

/-! ## `okx_api.py` — order placement

Amounts and prices are exact rationals; `pytrunc` is Python `int()`
(truncation toward zero).  An `OrderAttempt` is either a local rejection
(no network call issued) or the parameters of the one exchange call the
method makes. -/

/-- Python `int(q)`: truncation toward zero. -/
def pytrunc (q : ℚ) : ℤ := if 0 ≤ q then ⌊q⌋ else ⌈q⌉

inductive Side where
  | buy
  | sell
  deriving Repr, DecidableEq

inductive PosSide where
  | long
  | short
  deriving Repr, DecidableEq

/-- Parameters of `create_order(symbol, 'market', side, sz_contracts,
params)`. -/
structure CreateOrderCall where
  symbol : List Char
  ordType : String
  side : Side
  sz : ℤ
  tdMode : String
  posSide : Option PosSide
  deriving Repr, DecidableEq

/-- Parameters of `private_post_trade_order_algo(params)`; trigger prices
kept as rationals (the source stringifies them), `sz` as the string
`str(int(...))` / `"1"` the source builds. -/
structure AlgoOrderCall where
  instId : List Char
  tdMode : String
  side : Side
  ordType : String
  sz : String
  tpTriggerPx : Option ℚ
  tpOrdPx : Option String
  slTriggerPx : Option ℚ
  slOrdPx : Option String
  posSide : Option PosSide
  deriving Repr, DecidableEq

/-- Either a local rejection before any network call, or the single
order-placement call the method issues. -/
inductive OrderAttempt (P : Type) where
  | rejectedNoCall (msg : String)
  | submitted (call : P)
  deriving Repr, DecidableEq

namespace OKXAPI

/-- `OKXAPI._place_market_order` (after `_ensure_markets` /
`_ensure_position_mode`; `mode` is the memoized position mode, `ct_val` the
looked-up contract value). -/
def _place_market_order (mode : PosMode) (asset : List Char) (side : Side)
    (amount ct_val : ℚ) : OrderAttempt CreateOrderCall :=
  let symbol := _get_symbol asset
  let sz_contracts : ℤ := if ct_val > 0 then pytrunc (amount / ct_val) else 1
  if sz_contracts = 0 then
    .rejectedNoCall "Amount too small"
  else
    .submitted
      { symbol := symbol
      , ordType := "market"
      , side := side
      , sz := sz_contracts
      , tdMode := "cross"
      , posSide :=
          if mode = .long_short_mode then
            some (if side = .buy then .long else .short)
          else Option.none }

/-- `OKXAPI.place_take_profit`: unconditionally submits a conditional algo
order (there is no minimum-size check on this path). -/
def place_take_profit (mode : PosMode) (asset : List Char) (is_buy : Bool)
    (amount ct_val tp_price : ℚ) : OrderAttempt AlgoOrderCall :=
  let inst_id := _get_inst_id asset
  let sz_contracts : String :=
    if ct_val > 0 then toString (pytrunc (amount / ct_val)) else "1"
  let side := if is_buy then Side.sell else Side.buy
  .submitted
    { instId := inst_id
    , tdMode := "cross"
    , side := side
    , ordType := "conditional"
    , sz := sz_contracts
    , tpTriggerPx := some tp_price
    , tpOrdPx := some "-1"
    , slTriggerPx := Option.none
    , slOrdPx := Option.none
    , posSide :=
        if mode = .long_short_mode then
          some (if is_buy then PosSide.long else PosSide.short)
        else Option.none }

/-- `OKXAPI.place_stop_loss`: unconditionally submits a conditional algo
order (there is no minimum-size check on this path). -/
def place_stop_loss (mode : PosMode) (asset : List Char) (is_buy : Bool)
    (amount ct_val sl_price : ℚ) : OrderAttempt AlgoOrderCall :=
  let inst_id := _get_inst_id asset
  let sz_contracts : String :=
    if ct_val > 0 then toString (pytrunc (amount / ct_val)) else "1"
  let side := if is_buy then Side.sell else Side.buy
  .submitted
    { instId := inst_id
    , tdMode := "cross"
    , side := side
    , ordType := "conditional"
    , sz := sz_contracts
    , tpTriggerPx := Option.none
    , tpOrdPx := Option.none
    , slTriggerPx := some sl_price
    , slOrdPx := some "-1"
    , posSide :=
        if mode = .long_short_mode then
          some (if is_buy then PosSide.long else PosSide.short)
        else Option.none }

end OKXAPI

/-! ## Theorems -/

/-! ### Cache lemmas -/

theorem entryLookup_upsert {α : Type} (k : String) (e : CacheEntry α)
    (l : List (String × CacheEntry α)) :
    entryLookup (entryUpsert k e l) k = some e := by
  induction l with
  | nil => simp [entryUpsert, entryLookup]
  | cons hd tl ih =>
    obtain ⟨k', e'⟩ := hd
    by_cases h : k' = k
    · simp [entryUpsert, entryLookup, h]
    · simp [entryUpsert, entryLookup, h, ih]

theorem entryErase_length {α : Type} (k : String)
    (l : List (String × CacheEntry α)) (e : CacheEntry α)
    (h : entryLookup l k = some e) :
    (entryErase k l).length + 1 = l.length := by
  induction l with
  | nil => simp [entryLookup] at h
  | cons hd tl ih =>
    obtain ⟨k', e'⟩ := hd
    by_cases hk : k' = k
    · simp [entryErase, hk]
    · simp only [entryLookup, hk, if_false] at h
      simp [entryErase, hk, ih h]

theorem countP_split {α : Type} (l : List α) (p : α → Bool) :
    l.length = l.countP p + l.countP (fun a => !p a) := by
  induction l with
  | nil => simp
  | cons hd tl ih =>
    by_cases h : p hd
    · simp [List.countP_cons, h, ih]; omega
    · simp [List.countP_cons, h, ih]; omega

/-- C5: after `set`, a `get` within `ttl` returns exactly the stored bundle
with the cache unchanged; a `get` after `ttl` has elapsed returns absent and
deletes the entry, so `stats().total_entries` drops by one; `get` on a
never-stored key returns absent and leaves the cache unchanged. -/
theorem cache_set_get_ttl {α : Type} (c : TAAPICache α)
    (now1 now2 now3 : ℚ) (asset interval : String) (b : α) :
    (now2 - now1 ≤ c.ttl →
      TAAPICache.get (TAAPICache.set c now1 asset interval b) now2 asset interval
        = (some b, TAAPICache.set c now1 asset interval b))
    ∧ (now2 - now1 > c.ttl →
      (TAAPICache.get (TAAPICache.set c now1 asset interval b) now2 asset interval).1
        = Option.none
      ∧ (TAAPICache.stats
           (TAAPICache.get (TAAPICache.set c now1 asset interval b) now2 asset interval).2
           now3).1.total_entries + 1
        = (TAAPICache.stats (TAAPICache.set c now1 asset interval b) now3).1.total_entries)
    ∧ (∀ a2 i2, entryLookup c.cache (cacheKey a2 i2) = Option.none →
      TAAPICache.get c now2 a2 i2 = (Option.none, c)) := by
  refine ⟨?_, ?_, ?_⟩
  · intro h
    simp only [TAAPICache.get, TAAPICache.set, entryLookup_upsert]
    have : ¬ (now2 - now1 > c.ttl) := not_lt.mpr h
    simp [this]
  · intro h
    constructor
    · simp [TAAPICache.get, TAAPICache.set, entryLookup_upsert, h]
    · simp only [TAAPICache.get, TAAPICache.set, entryLookup_upsert, h,
        if_pos, TAAPICache.stats]
      exact entryErase_length _ _ _ (entryLookup_upsert _ _ _)
  · intro a2 i2 h
    simp [TAAPICache.get, h]

/-- C5 witness: concrete run with `ttl = 60`: a `get` at 30 s hits and
returns the stored value; a `get` at 100 s misses, evicts, and the entry
count drops from 1 to 0. -/
theorem cache_set_get_ttl_witness :
    (TAAPICache.get
        (TAAPICache.set (⟨60, []⟩ : TAAPICache ℕ) 0 "BTC" "5m" 7) 30 "BTC" "5m"
      = (some 7, TAAPICache.set (⟨60, []⟩ : TAAPICache ℕ) 0 "BTC" "5m" 7))
    ∧ ((TAAPICache.get
        (TAAPICache.set (⟨60, []⟩ : TAAPICache ℕ) 0 "BTC" "5m" 7) 100 "BTC" "5m").1
      = Option.none) :=
  ⟨(cache_set_get_ttl (⟨60, []⟩ : TAAPICache ℕ) 0 30 0 "BTC" "5m" 7).1 (by norm_num),
   ((cache_set_get_ttl (⟨60, []⟩ : TAAPICache ℕ) 0 100 0 "BTC" "5m" 7).2.1 (by norm_num)).1⟩

/-- C7: for every cache state and observation time, `stats` reports
`total_entries = active_entries + expired_entries` (active iff age ≤ ttl),
and the call leaves the cache contents untouched. -/
theorem cache_stats_partition {α : Type} (c : TAAPICache α) (now : ℚ) :
    ((TAAPICache.stats c now).1.total_entries
      = (TAAPICache.stats c now).1.active_entries
        + (TAAPICache.stats c now).1.expired_entries)
    ∧ (TAAPICache.stats c now).2 = c := by
  constructor
  · simp only [TAAPICache.stats]
    have h := countP_split c.cache (fun e => decide (now - e.2.timestamp ≤ c.ttl))
    have heq : (fun e : String × CacheEntry α => !decide (now - e.2.timestamp ≤ c.ttl))
        = (fun e : String × CacheEntry α => decide (now - e.2.timestamp > c.ttl)) := by
      funext e
      by_cases hle : now - e.2.timestamp ≤ c.ttl
      · simp [hle, not_lt.mpr hle]
      · simp [hle, lt_of_not_le hle]
    rw [heq] at h
    exact h
  · rfl

/-- C8: normalization is total (both extractors are total Lean functions)
and: a dict response whose named key holds a list yields that list with each
numeric element rounded to 4 decimals, in received order; a falsy (missing /
empty) or non-conforming response yields `[]` / `None`; a numeric value
under the named key is rounded to 4 decimals; a missing field yields `None`.
-/
theorem extract_normalization (fields : List (String × PyVal)) (k : String)
    (vs : List PyVal) (q : ℚ) (data : PyVal) :
    (dictLookup fields k = some (.list vs) →
      extract_series (.obj fields) k = vs.map round4IfNum)
    ∧ (pyTruthy data = false →
      extract_series data k = [] ∧ extract_value data k = .none)
    ∧ (dictLookup fields k = Option.none →
      extract_series (.obj fields) k = [] ∧ extract_value (.obj fields) k = .none)
    ∧ (dictLookup fields k = some (.num q) →
      extract_value (.obj fields) k = .num (round4 q))
    ∧ (∀ v, dictLookup fields k = some v → (∀ xs, v ≠ .list xs) →
      extract_series (.obj fields) k = []) := by
  refine ⟨?_, ?_, ?_, ?_, ?_⟩
  · intro h
    have hne : fields ≠ [] := by
      intro hnil; rw [hnil] at h; simp [dictLookup] at h
    simp [extract_series, pyTruthy, hne, h]
  · intro h
    constructor
    · simp [extract_series, h]
    · simp [extract_value, h]
  · intro h
    by_cases hne : fields = []
    · subst hne
      constructor
      · simp [extract_series, pyTruthy]
      · simp [extract_value, pyTruthy]
    · constructor
      · simp [extract_series, pyTruthy, hne, h]
      · simp [extract_value, pyTruthy, hne, h]
  · intro h
    have hne : fields ≠ [] := by
      intro hnil; rw [hnil] at h; simp [dictLookup] at h
    simp [extract_value, pyTruthy, hne, h, round4IfNum]
  · intro v h hv
    have hne : fields ≠ [] := by
      intro hnil; rw [hnil] at h; simp [dictLookup] at h
    cases v with
    | list xs => exact absurd rfl (hv xs)
    | none => simp [extract_series, pyTruthy, hne, h]
    | bool b => simp [extract_series, pyTruthy, hne, h]
    | num q2 => simp [extract_series, pyTruthy, hne, h]
    | str s => simp [extract_series, pyTruthy, hne, h]
    | obj fs => simp [extract_series, pyTruthy, hne, h]

/-- C8 witness: `{"value": [1.23456, 2]}` normalizes to `[1.2346, 2]`, and a
scalar `{"value": 1.23456}` to `1.2346`. -/
theorem extract_normalization_witness :
    extract_series (.obj [("value", .list [.num (123456/100000), .num 2])]) "value"
      = [.num (12346/10000), .num 2]
    ∧ extract_value (.obj [("value", .num (123456/100000))]) "value"
      = .num (12346/10000) := by
  constructor
  · have h := (extract_normalization
      [("value", .list [.num (123456/100000), .num 2])] "value"
      [.num (123456/100000), .num 2] 0 .none).1 rfl
    rw [h]
    simp only [List.map, round4IfNum]
    norm_num [round4, roundHalfEven]
  · have h := (extract_normalization
      [("value", .num (123456/100000))] "value" [] (123456/100000) .none).2.2.2.1 rfl
    rw [h]
    norm_num [round4, roundHalfEven]

/-- C1 (code bug): `fetch_asset_indicators` never fails, not even when every
indicator in both horizons is empty: the `raise RuntimeError` guarded by
`if all_5m_empty and all_lt_empty` sits inside a `try:` whose handler is
`except Exception: pass`, which swallows it.  At the all-empty input (both
bulk responses `{}`) the intended check fires (`hardFailureCheck` errors,
both emptiness flags are true) yet the call returns `ok` with two all-empty
bundles. -/
theorem fetch_never_hard_fails :
    (∀ bulk_5m bulk_4h, fetch_asset_indicators bulk_5m bulk_4h
      = .ok (result_5m bulk_5m, result_4h bulk_4h))
    ∧ all_5m_empty (result_5m []) = true
    ∧ all_lt_empty (result_4h []) = true
    ∧ hardFailureCheck (result_5m []) (result_4h [])
      = .error "TAAPI returned no usable indicators"
    ∧ fetch_asset_indicators [] [] = .ok (result_5m [], result_4h []) := by
  refine ⟨fun _ _ => rfl, by rfl, by rfl, ?_, rfl⟩
  have h5 : all_5m_empty (result_5m []) = true := by rfl
  have h4 : all_lt_empty (result_4h []) = true := by rfl
  simp [hardFailureCheck, h5, h4]

/-! ### Retry-layer lemmas -/

theorem retryLoop_attempts_le (o : ℕ → ReqOutcome) (b : ℚ) :
    ∀ fuel attempt, (retryLoop o b fuel attempt).attempts ≤ attempt + fuel := by
  intro fuel
  induction fuel with
  | zero => intro attempt; simp [retryLoop]
  | succ f ih =>
    intro attempt
    cases ho : o attempt with
    | success v => simp [retryLoop, ho]
    | httpError s =>
      simp only [retryLoop, ho]
      split
      · have h := ih (attempt + 1)
        show (retryLoop o b f (attempt + 1)).attempts ≤ attempt + (f + 1)
        omega
      · show attempt + 1 ≤ attempt + (f + 1)
        omega
    | timeoutErr =>
      simp only [retryLoop, ho]
      split
      · have h := ih (attempt + 1)
        show (retryLoop o b f (attempt + 1)).attempts ≤ attempt + (f + 1)
        omega
      · show attempt + 1 ≤ attempt + (f + 1)
        omega

theorem retryLoop_sleeps_fixed (o : ℕ → ReqOutcome) (b : ℚ) :
    ∀ fuel attempt w, w ∈ (retryLoop o b fuel attempt).sleeps → w = b := by
  intro fuel
  induction fuel with
  | zero => intro attempt w hw; simp [retryLoop] at hw
  | succ f ih =>
    intro attempt w hw
    cases ho : o attempt with
    | success v => simp [retryLoop, ho] at hw
    | httpError s =>
      simp only [retryLoop, ho] at hw
      split at hw
      · simp at hw
        rcases hw with hw | hw
        · exact hw
        · exact ih (attempt + 1) w hw
      · simp at hw
    | timeoutErr =>
      simp only [retryLoop, ho] at hw
      split at hw
      · simp at hw
        rcases hw with hw | hw
        · exact hw
        · exact ih (attempt + 1) w hw
      · simp at hw

theorem retryLoop_retried_only_on_retryable (o : ℕ → ReqOutcome) (b : ℚ) :
    ∀ fuel attempt i, attempt ≤ i →
    i + 1 < (retryLoop o b fuel attempt).attempts →
    retryableOutcome (o i) = true := by
  intro fuel
  induction fuel with
  | zero =>
    intro attempt i h1 h2
    simp only [retryLoop] at h2
    omega
  | succ f ih =>
    intro attempt i h1 h2
    cases ho : o attempt with
    | success v =>
      rw [show (retryLoop o b (f + 1) attempt).attempts = attempt + 1 by
        simp [retryLoop, ho]] at h2
      omega
    | httpError s =>
      simp only [retryLoop, ho] at h2
      split at h2
      · rename_i hcond
        by_cases hi : i = attempt
        · subst hi
          simp only [retryableOutcome, ho]
          have hc2 := (Bool.and_eq_true _ _).mp hcond
          exact hc2.1
        · exact ih (attempt + 1) i (by omega) h2
      · simp only at h2
        omega
    | timeoutErr =>
      simp only [retryLoop, ho] at h2
      split at h2
      · by_cases hi : i = attempt
        · subst hi
          simp [retryableOutcome, ho]
        · exact ih (attempt + 1) i (by omega) h2
      · simp only at h2
        omega

theorem retryLoop_first_nonretryable (o : ℕ → ReqOutcome) (b : ℚ)
    (s i : ℕ) (hs : retryableStatus s = false) (ho : o i = .httpError s) :
    ∀ fuel attempt, attempt ≤ i → i < attempt + fuel →
    (∀ j, attempt ≤ j → j < i → retryableOutcome (o j) = true) →
    (retryLoop o b fuel attempt).result = .error (.httpError s)
      ∧ (retryLoop o b fuel attempt).attempts = i + 1 := by
  intro fuel
  induction fuel with
  | zero => intro attempt h1 h2 _; omega
  | succ f ih =>
    intro attempt h1 h2 hall
    by_cases hai : attempt = i
    · subst hai
      simp [retryLoop, ho, hs]
    · have hlt : attempt < i := lt_of_le_of_ne h1 hai
      have hr := hall attempt le_rfl hlt
      cases hoa : o attempt with
      | success v => simp [retryableOutcome, hoa] at hr
      | httpError s' =>
        rw [hoa] at hr
        have hs' : retryableStatus s' = true := hr
        have hf : 0 < f := by omega
        simp only [retryLoop, hoa, hs', decide_eq_true hf, Bool.true_and, if_true]
        exact ih (attempt + 1) (by omega) (by omega)
          (fun j hj1 hj2 => hall j (by omega) hj2)
      | timeoutErr =>
        have hf : 0 < f := by omega
        simp only [retryLoop, hoa, if_pos hf]
        exact ih (attempt + 1) (by omega) (by omega)
          (fun j hj1 hj2 => hall j (by omega) hj2)

theorem retryLoop_exhaustion (o : ℕ → ReqOutcome) (b : ℚ) :
    ∀ fuel attempt, 0 < fuel →
    (∀ j, attempt ≤ j → j < attempt + fuel → retryableOutcome (o j) = true) →
    (retryLoop o b fuel attempt).result
        = .error (outcomeError (o (attempt + fuel - 1)))
      ∧ (retryLoop o b fuel attempt).attempts = attempt + fuel := by
  intro fuel
  induction fuel with
  | zero => intro attempt h _; omega
  | succ f ih =>
    intro attempt _ hall
    have hr := hall attempt le_rfl (by omega)
    by_cases hf : f = 0
    · subst hf
      cases hoa : o attempt with
      | success v => simp [retryableOutcome, hoa] at hr
      | httpError s =>
        simp [retryLoop, hoa, outcomeError]
      | timeoutErr =>
        simp [retryLoop, hoa, outcomeError]
    · have hf' : 0 < f := Nat.pos_of_ne_zero hf
      cases hoa : o attempt with
      | success v => simp [retryableOutcome, hoa] at hr
      | httpError s =>
        rw [hoa] at hr
        have hs : retryableStatus s = true := hr
        simp only [retryLoop, hoa, hs, decide_eq_true hf', Bool.true_and, if_true]
        have h := ih (attempt + 1) hf'
          (fun j hj1 hj2 => hall j (by omega) (by omega))
        have heq : attempt + 1 + f - 1 = attempt + (f + 1) - 1 := by omega
        rw [heq] at h
        refine ⟨h.1, ?_⟩
        show (retryLoop o b f (attempt + 1)).attempts = attempt + (f + 1)
        omega
      | timeoutErr =>
        simp only [retryLoop, hoa, if_pos hf']
        have h := ih (attempt + 1) hf'
          (fun j hj1 hj2 => hall j (by omega) (by omega))
        have heq : attempt + 1 + f - 1 = attempt + (f + 1) - 1 := by omega
        rw [heq] at h
        refine ⟨h.1, ?_⟩
        show (retryLoop o b f (attempt + 1)).attempts = attempt + (f + 1)
        omega

/-- C6: the shared request layer (GET and POST run the identical loop) makes
at most 10 attempts, sleeps a fixed `backoff` between attempts, retries
only on HTTP 429 / ≥500 / timeout (every attempt that was followed by
another was such a failure), raises any non-retryable HTTP error (in
particular every non-429 4xx) on its first occurrence without further
attempts, and after the attempt budget is exhausted surfaces the final
failure. -/
theorem request_retry_policy (outcomes : ℕ → ReqOutcome) (backoff : ℚ) :
    post_with_retry outcomes 10 backoff = get_with_retry outcomes 10 backoff
    ∧ (get_with_retry outcomes 10 backoff).attempts ≤ 10
    ∧ (∀ w ∈ (get_with_retry outcomes 10 backoff).sleeps, w = backoff)
    ∧ (∀ i s, i < 10 → outcomes i = .httpError s → retryableStatus s = false →
        (∀ j, j < i → retryableOutcome (outcomes j) = true) →
        (get_with_retry outcomes 10 backoff).result = .error (.httpError s)
          ∧ (get_with_retry outcomes 10 backoff).attempts = i + 1)
    ∧ ((∀ j, j < 10 → retryableOutcome (outcomes j) = true) →
        (get_with_retry outcomes 10 backoff).result
            = .error (outcomeError (outcomes 9))
          ∧ (get_with_retry outcomes 10 backoff).attempts = 10)
    ∧ (∀ i, i + 1 < (get_with_retry outcomes 10 backoff).attempts →
        retryableOutcome (outcomes i) = true) := by
  refine ⟨rfl, ?_, ?_, ?_, ?_, ?_⟩
  · simpa using retryLoop_attempts_le outcomes backoff 10 0
  · exact fun w hw => retryLoop_sleeps_fixed outcomes backoff 10 0 w hw
  · intro i s hi ho hs hall
    exact retryLoop_first_nonretryable outcomes backoff s i hs ho 10 0
      (Nat.zero_le i) (by omega) (fun j _ hj2 => hall j hj2)
  · intro hall
    simpa using retryLoop_exhaustion outcomes backoff 10 0 (by norm_num)
      (fun j _ hj2 => hall j (by omega))
  · intro i hi
    exact retryLoop_retried_only_on_retryable outcomes backoff 10 0 i
      (Nat.zero_le i) hi

/-- C6 witness: on the trace 429, timeout, 503, 404 the layer retries the
three transient failures and raises the 404 on its first occurrence after
exactly 4 attempts. -/
theorem request_retry_policy_witness :
    (get_with_retry sampleOutcomes 10 5).result = .error (.httpError 404)
    ∧ (get_with_retry sampleOutcomes 10 5).attempts = 4 :=
  (request_retry_policy sampleOutcomes 5).2.2.2.1 3 404 (by norm_num)
    (by rfl) (by decide) (by decide)

/-! ### String lemmas for the symbol mapping -/

theorem isPrefixOf_append_right (l b : List Char) :
    l.isPrefixOf (l ++ b) = true := by
  induction l with
  | nil => simp [List.isPrefixOf]
  | cons c t ih => simp [List.isPrefixOf, ih]

theorem hasSub_nil_pat (hay : List Char) : hasSub hay [] = true := by
  cases hay with
  | nil => rfl
  | cons c t => simp [hasSub, List.isPrefixOf]

theorem hasSub_of_append (a pat b : List Char) :
    hasSub (a ++ (pat ++ b)) pat = true := by
  induction a with
  | nil =>
    simp only [List.nil_append]
    cases pat with
    | nil => exact hasSub_nil_pat b
    | cons p pt =>
      show hasSub (p :: (pt ++ b)) (p :: pt) = true
      simp [hasSub]
  | cons x xs ih =>
    show hasSub (x :: (xs ++ (pat ++ b))) pat = true
    simp [hasSub, ih]

theorem hasSub_eq_false (hay : List Char) (a : Char) (pr : List Char)
    (h : ∀ c ∈ hay, c ≠ a) : hasSub hay (a :: pr) = false := by
  induction hay with
  | nil => rfl
  | cons c t ih =>
    have hc : c ≠ a := h c (List.mem_cons_self c t)
    have hba : (a == c) = false := beq_eq_false_iff_ne.mpr (Ne.symm hc)
    simp [hasSub, List.isPrefixOf, hba,
      ih (fun x hx => h x (List.mem_cons_of_mem _ hx))]

theorem splitFirst_append (C r : List Char) (sep : Char)
    (h : ∀ c ∈ C, c ≠ sep) : splitFirst sep (C ++ sep :: r) = C := by
  induction C with
  | nil => simp [splitFirst]
  | cons x xs ih =>
    have hx : x ≠ sep := h x (List.mem_cons_self x xs)
    simp [splitFirst, hx, ih (fun c hc => h c (List.mem_cons_of_mem _ hc))]

theorem replaceAll_append (C pr : List Char) (h : ∀ c ∈ C, c ≠ '-') :
    replaceAll ('-' :: pr) [] (C ++ '-' :: pr) = C := by
  induction C with
  | nil =>
    show replaceAll ('-' :: pr) [] ('-' :: pr) = []
    rw [replaceAll]
    rw [dif_pos ⟨by simp, by simp [List.isPrefixOf]⟩]
    have hdrop : List.drop (pr.length + 1) ('-' :: pr) = [] := by
      simp [List.drop_succ_cons, List.drop_length]
    simp only [List.length_cons, List.nil_append, hdrop]
    simp [replaceAll]
  | cons x xs ih =>
    show replaceAll ('-' :: pr) [] (x :: (xs ++ '-' :: pr)) = x :: xs
    rw [replaceAll]
    have hx : x ≠ '-' := h x (List.mem_cons_self x xs)
    have hpf : ('-' :: pr).isPrefixOf (x :: (xs ++ '-' :: pr)) = false := by
      have : ('-' == x) = false := beq_eq_false_iff_ne.mpr (Ne.symm hx)
      simp [List.isPrefixOf, this]
    rw [dif_neg (by simp [hpf])]
    exact congrArg (x :: ·) (ih (fun c hc => h c (List.mem_cons_of_mem _ hc)))

/-- C9: for every coin ticker `C` (no `'/'` or `'-'` in its characters) the
symbol mappings round-trip: ticker → instrument id `"{C}-USDT-SWAP"` →
ticker, and ticker → unified pair symbol `"{C}/USDT:USDT"` → ticker; all
four maps are pure string transforms. -/
theorem symbol_mapping_roundtrip (C : List Char)
    (h : ∀ c ∈ C, c ≠ '/' ∧ c ≠ '-') :
    OKXAPI._get_asset_from_symbol (OKXAPI._get_inst_id C) = C
    ∧ OKXAPI._get_asset_from_symbol (OKXAPI._get_symbol C) = C := by
  have hdash : ∀ c ∈ C, c ≠ '-' := fun c hc => (h c hc).2
  have hslash : ∀ c ∈ C, c ≠ '/' := fun c hc => (h c hc).1
  constructor
  · have h1 : hasSub C "-SWAP".data = false :=
      hasSub_eq_false C '-' "SWAP".data hdash
    have h2 : OKXAPI._get_inst_id C = C ++ "-USDT-SWAP".data := by
      simp [OKXAPI._get_inst_id, h1]
    rw [h2]
    have hlit : ∀ c ∈ "-USDT-SWAP".data, c ≠ '/' := by decide
    have h3 : hasSub (C ++ "-USDT-SWAP".data) "/".data = false := by
      refine hasSub_eq_false _ '/' [] ?_
      intro c hc
      rcases List.mem_append.mp hc with hc | hc
      · exact hslash c hc
      · exact hlit c hc
    have h4 : hasSub (C ++ "-USDT-SWAP".data) "-USDT-SWAP".data = true :=
      hasSub_of_append C "-USDT-SWAP".data []
    simp only [OKXAPI._get_asset_from_symbol, h3, h4]
    simp only [Bool.false_eq_true, if_false, if_true]
    exact replaceAll_append C "USDT-SWAP".data hdash
  · have h1 : hasSub C "/".data = false :=
      hasSub_eq_false C '/' [] hslash
    have h2 : OKXAPI._get_symbol C = C ++ "/USDT:USDT".data := by
      simp [OKXAPI._get_symbol, h1]
    rw [h2]
    have h3 : hasSub (C ++ "/USDT:USDT".data) "/".data = true :=
      hasSub_of_append C "/".data "USDT:USDT".data
    simp only [OKXAPI._get_asset_from_symbol, h3, if_true]
    exact splitFirst_append C "USDT:USDT".data '/' hslash

/-- C9 witness: the round-trip at the concrete ticker `"BTC"`. -/
theorem symbol_mapping_roundtrip_witness :
    OKXAPI._get_asset_from_symbol (OKXAPI._get_inst_id "BTC".data) = "BTC".data
    ∧ OKXAPI._get_asset_from_symbol (OKXAPI._get_symbol "BTC".data) = "BTC".data :=
  symbol_mapping_roundtrip "BTC".data (by decide)

/-! ### Position-mode lemmas -/

theorem run_ensures_some (qs : List ConfigQuery) (m : PosMode) :
    OKXAPI.run_ensures (some m) qs = some m := by
  induction qs with
  | nil => rfl
  | cons q rest ih =>
    show OKXAPI.run_ensures (OKXAPI._ensure_position_mode (some m) q) rest = some m
    exact ih

/-- C4: position-mode detection runs at most once per session.  From
`Unknown` (`none`), the first call commits `detectPosMode` of that call's
query outcome and every later call returns the memoized value unchanged,
whatever its query would answer; a failed query or an unrecognized field
commits `net_mode` (and, being memoized, permanently so). -/
theorem position_mode_memoized (q : ConfigQuery) (qs : List ConfigQuery)
    (m : PosMode) :
    OKXAPI.run_ensures Option.none (q :: qs) = some (detectPosMode q)
    ∧ OKXAPI.run_ensures (some m) qs = some m
    ∧ (q = .failure → detectPosMode q = .net_mode)
    ∧ (∀ f, f ≠ some "net_mode" → f ≠ some "long_short_mode" →
        detectPosMode (.success f) = .net_mode) := by
  refine ⟨?_, run_ensures_some qs m, ?_, ?_⟩
  · show OKXAPI.run_ensures (OKXAPI._ensure_position_mode Option.none q) qs
      = some (detectPosMode q)
    exact run_ensures_some qs (detectPosMode q)
  · intro hq; subst hq; rfl
  · intro f h1 h2
    simp [detectPosMode, h1, h2]

/-- C4 witness: a session whose first query reports `long_short_mode` stays
in `long_short_mode` through a later failing query and a later
`net_mode`-reporting query; and an unrecognized field commits `net_mode`. -/
theorem position_mode_memoized_witness :
    OKXAPI.run_ensures Option.none
      [ConfigQuery.success (some "long_short_mode"), ConfigQuery.failure,
       ConfigQuery.success (some "net_mode")]
      = some PosMode.long_short_mode
    ∧ detectPosMode (.success (some "garbage")) = .net_mode := by
  constructor
  · rw [(position_mode_memoized (.success (some "long_short_mode"))
      [ConfigQuery.failure, ConfigQuery.success (some "net_mode")]
      PosMode.net_mode).1]
    decide
  · exact (position_mode_memoized ConfigQuery.failure [] PosMode.net_mode).2.2.2
      (some "garbage") (by decide) (by decide)

/-! ### Order-placement theorems -/

theorem pytrunc_of_nonneg (q : ℚ) (h : 0 ≤ q) : pytrunc q = ⌊q⌋ := by
  simp [pytrunc, h]

/-- C2: for a market order with `coinAmount > 0` and `contractValue > 0`,
the submitted contract count is `⌊coinAmount / contractValue⌋`; when that
floor is 0 the method returns the size-too-small rejection and issues no
exchange call. -/
theorem market_order_contract_conversion (mode : PosMode) (asset : List Char)
    (side : Side) (amount ct_val : ℚ) (ha : 0 < amount) (hc : 0 < ct_val) :
    (⌊amount / ct_val⌋ = 0 →
      OKXAPI._place_market_order mode asset side amount ct_val
        = .rejectedNoCall "Amount too small")
    ∧ (⌊amount / ct_val⌋ ≠ 0 →
      OKXAPI._place_market_order mode asset side amount ct_val
        = .submitted
            { symbol := OKXAPI._get_symbol asset
            , ordType := "market"
            , side := side
            , sz := ⌊amount / ct_val⌋
            , tdMode := "cross"
            , posSide :=
                if mode = .long_short_mode then
                  some (if side = .buy then .long else .short)
                else Option.none }) := by
  have hq : (0 : ℚ) ≤ amount / ct_val := le_of_lt (div_pos ha hc)
  have htr : pytrunc (amount / ct_val) = ⌊amount / ct_val⌋ :=
    pytrunc_of_nonneg _ hq
  constructor
  · intro h0
    simp [OKXAPI._place_market_order, hc, htr, h0]
  · intro h0
    simp [OKXAPI._place_market_order, hc, htr, h0]

/-- C2 witness: `coinAmount=0.25, contractValue=0.01` submits 25 contracts;
`coinAmount=0.001, contractValue=1.0` floors to 0 and is rejected with no
exchange call. -/
theorem market_order_contract_conversion_witness :
    OKXAPI._place_market_order PosMode.net_mode "BTC".data Side.buy
        (1/4) (1/100)
      = .submitted
          { symbol := OKXAPI._get_symbol "BTC".data
          , ordType := "market"
          , side := Side.buy
          , sz := 25
          , tdMode := "cross"
          , posSide := Option.none }
    ∧ OKXAPI._place_market_order PosMode.net_mode "BTC".data Side.buy
        (1/1000) 1
      = .rejectedNoCall "Amount too small" := by
  constructor
  · have h := (market_order_contract_conversion PosMode.net_mode "BTC".data
      Side.buy (1/4) (1/100) (by norm_num) (by norm_num)).2 (by norm_num)
    have h25 : ⌊(1/4 : ℚ) / (1/100)⌋ = (25 : ℤ) := by norm_num
    rw [h25] at h
    simpa using h
  · exact (market_order_contract_conversion PosMode.net_mode "BTC".data
      Side.buy (1/1000) 1 (by norm_num) (by norm_num)).1 (by norm_num)

/-- C3: take-profit and stop-loss conditional orders close on the side
opposite the original position (`sell` when `wasLong`, `buy` otherwise),
execute at market on trigger (`tpOrdPx`/`slOrdPx` = `"-1"`), and in
long/short mode attach `posSide` equal to the original position direction
(`long` when `wasLong`), not the closing side. -/
theorem tp_sl_side_and_pos_side (mode : PosMode) (asset : List Char)
    (is_buy : Bool) (amount ct_val tp_price sl_price : ℚ) :
    (∃ tp, OKXAPI.place_take_profit mode asset is_buy amount ct_val tp_price
        = .submitted tp
      ∧ tp.side = (if is_buy then Side.sell else Side.buy)
      ∧ tp.tpOrdPx = some "-1"
      ∧ (mode = .long_short_mode →
          tp.posSide = some (if is_buy then PosSide.long else PosSide.short)))
    ∧ (∃ sl, OKXAPI.place_stop_loss mode asset is_buy amount ct_val sl_price
        = .submitted sl
      ∧ sl.side = (if is_buy then Side.sell else Side.buy)
      ∧ sl.slOrdPx = some "-1"
      ∧ (mode = .long_short_mode →
          sl.posSide = some (if is_buy then PosSide.long else PosSide.short))) := by
  constructor
  · refine ⟨_, rfl, rfl, rfl, ?_⟩
    intro hm
    simp [hm]
  · refine ⟨_, rfl, rfl, rfl, ?_⟩
    intro hm
    simp [hm]

/-- C3 witness: in long/short mode, closing a long (`wasLong = true`) places
`sell`-side conditional orders carrying `posSide = long`. -/
theorem tp_sl_side_and_pos_side_witness :
    (∃ tp, OKXAPI.place_take_profit PosMode.long_short_mode "BTC".data true
        1 (1/100) 50000 = .submitted tp
      ∧ tp.side = Side.sell ∧ tp.posSide = some PosSide.long)
    ∧ (∃ sl, OKXAPI.place_stop_loss PosMode.long_short_mode "BTC".data true
        1 (1/100) 40000 = .submitted sl
      ∧ sl.side = Side.sell ∧ sl.posSide = some PosSide.long) := by
  obtain ⟨⟨tp, htp, hside, _, hpos⟩, ⟨sl, hsl, hside', _, hpos'⟩⟩ :=
    tp_sl_side_and_pos_side PosMode.long_short_mode "BTC".data true
      1 (1/100) 50000 40000
  exact ⟨⟨tp, htp, by simpa using hside, by simpa using hpos rfl⟩,
    ⟨sl, hsl, by simpa using hside', by simpa using hpos' rfl⟩⟩

/-- C10: unlike market orders, TP/SL placement has no minimum-size check:
with `0 < coinAmount < contractValue` the conditional algo order is still
submitted, with `sz = "0"`; and with a non-positive looked-up contract value
the submitted size defaults to `"1"`. -/
theorem tp_sl_no_min_size_check (mode : PosMode) (asset : List Char)
    (is_buy : Bool) (amount ct_val tp_price sl_price : ℚ) :
    (0 < amount → amount < ct_val →
      (∃ tp, OKXAPI.place_take_profit mode asset is_buy amount ct_val tp_price
          = .submitted tp ∧ tp.sz = "0")
      ∧ (∃ sl, OKXAPI.place_stop_loss mode asset is_buy amount ct_val sl_price
          = .submitted sl ∧ sl.sz = "0"))
    ∧ (ct_val ≤ 0 →
      (∃ tp, OKXAPI.place_take_profit mode asset is_buy amount ct_val tp_price
          = .submitted tp ∧ tp.sz = "1")
      ∧ (∃ sl, OKXAPI.place_stop_loss mode asset is_buy amount ct_val sl_price
          = .submitted sl ∧ sl.sz = "1")) := by
  constructor
  · intro ha hlt
    have hc : 0 < ct_val := lt_trans ha hlt
    have hq0 : (0 : ℚ) ≤ amount / ct_val := le_of_lt (div_pos ha hc)
    have hq1 : amount / ct_val < 1 := (div_lt_one hc).mpr hlt
    have hfl : ⌊amount / ct_val⌋ = 0 := Int.floor_eq_zero_iff.mpr ⟨hq0, hq1⟩
    have hsz : (if ct_val > 0 then toString (pytrunc (amount / ct_val)) else "1")
        = "0" := by
      rw [if_pos hc, pytrunc_of_nonneg _ hq0, hfl]
      rfl
    constructor
    · exact ⟨_, rfl, by simpa [OKXAPI.place_take_profit] using hsz⟩
    · exact ⟨_, rfl, by simpa [OKXAPI.place_stop_loss] using hsz⟩
  · intro hc
    have hc' : ¬ct_val > 0 := not_lt.mpr hc
    constructor
    · exact ⟨_, rfl, by simp [OKXAPI.place_take_profit, hc']⟩
    · exact ⟨_, rfl, by simp [OKXAPI.place_stop_loss, hc']⟩

/-- C10 witness: `coinAmount = 0.001 < contractValue = 0.01` still submits
TP/SL algo orders with `sz = "0"`, and a zero contract value submits with
`sz = "1"`. -/
theorem tp_sl_no_min_size_check_witness :
    ((∃ tp, OKXAPI.place_take_profit PosMode.net_mode "BTC".data true
        (1/1000) (1/100) 50000 = .submitted tp ∧ tp.sz = "0")
      ∧ (∃ sl, OKXAPI.place_stop_loss PosMode.net_mode "BTC".data true
        (1/1000) (1/100) 40000 = .submitted sl ∧ sl.sz = "0"))
    ∧ ((∃ tp, OKXAPI.place_take_profit PosMode.net_mode "BTC".data true
        (1/1000) 0 50000 = .submitted tp ∧ tp.sz = "1")
      ∧ (∃ sl, OKXAPI.place_stop_loss PosMode.net_mode "BTC".data true
        (1/1000) 0 40000 = .submitted sl ∧ sl.sz = "1")) :=
  ⟨(tp_sl_no_min_size_check PosMode.net_mode "BTC".data true
      (1/1000) (1/100) 50000 40000).1 (by norm_num) (by norm_num),
   (tp_sl_no_min_size_check PosMode.net_mode "BTC".data true
      (1/1000) 0 50000 40000).2 (by norm_num)⟩
